import Mathlib

/-!
Shallow embedding of the key-resolution and operation-contract layer of the
`aws-file-manager` library (`src/lib/aws-file-manager.ts`), together with
proofs about its behaviour.

Modelling conventions:
- JavaScript strings are Lean `String` (a wrapper around `List Char`);
  the helpers that the source implements with regexes or `split` are
  modelled character-by-character on `List Char`.
- Optional / possibly-`undefined` values are `Option`; JavaScript
  truthiness tests (`if (options.key)`) are explicit `Bool`-valued
  functions on `Option`.
- Promise rejection is `Except S3Error`; the store's response to a
  request is passed in as an explicit argument, so each operation is a
  pure function of the store's behaviour.
- The random UUID produced by `crypto.randomUUID()` is passed in as an
  explicit argument to the functions that consume it.
-/

/-- JavaScript truthiness of an optional string: `if (x)` is true exactly
when `x` is present and non-empty. -/
def strTruthy : Option String → Bool
  | none => false
  | some s => s != ""

/-- JavaScript truthiness of an optional boolean flag
(`undefined` and `false` are falsy, `true` is truthy). -/
def boolTruthy : Option Bool → Bool
  | none => false
  | some b => b

/-- One application of `s.replace(/^\/|\/$/g, "")` from the source
(constructor basePath normalisation and `buildFullKey`'s folder
normalisation): the regex removes one leading `/` (the `^\/` alternative
can only match at position 0) and one trailing `/` (the `\/$`
alternative), and nothing else. -/
def stripSlashesL (cs : List Char) : List Char :=
  let cs1 :=
    match cs with
    | '/' :: rest => rest
    | other => other
  match cs1.reverse with
  | '/' :: rest => rest.reverse
  | _ => cs1

/-- String-level wrapper for `stripSlashesL`. -/
def stripSlashes (s : String) : String :=
  String.mk (stripSlashesL s.data)

/-- Constructor normalisation of `config.basePath`:
`config.basePath ? config.basePath.replace(/^\/|\/$/g, "") : ""`. -/
def normalizeBasePath (basePath : Option String) : String :=
  if strTruthy basePath then stripSlashes (basePath.getD "") else ""

/-- Model of `Array.prototype.join("/")` over character lists. -/
def joinSlash : List (List Char) → List Char
  | [] => []
  | [p] => p
  | p :: ps => p ++ '/' :: joinSlash ps

/-- `buildFullKey(fileName, folder)` from the source, with the instance's
(already normalised) `this.basePath` passed explicitly:
`[basePath, folderPart, fileName].filter(p => p.length > 0).join("/")`
where `folderPart = folder ? folder.replace(/^\/|\/$/g, "") : ""`. -/
def buildFullKey (basePath fileName : String) (folder : Option String) : String :=
  let folderPart := if strTruthy folder then stripSlashes (folder.getD "") else ""
  String.mk (joinSlash
    ((([basePath, folderPart, fileName]).filter (fun part => decide (0 < part.length))).map
      String.data))

/-- Model of JavaScript `String.prototype.split` with separator `"/"`,
over character lists: splits at every `'/'` and always returns at least
one (possibly empty) segment. -/
def splitSlash : List Char → List (List Char)
  | [] => [[]]
  | c :: cs =>
    if c = '/' then [] :: splitSlash cs
    else
      match splitSlash cs with
      | [] => [[c]]
      | seg :: segs => (c :: seg) :: segs

/-- Model of `options.key.split("/").pop() ?? originalName` in
`resolveKey`: the last `/`-separated segment of the key, falling back to
`originalName` only if `split` produced no segments (which never
happens). -/
def storedNameFromKey (key originalName : String) : String :=
  match (splitSlash key.data).getLast? with
  | some seg => String.mk seg
  | none => originalName

/-- The extension computed by `makeUniqueFileName`:
`originalName.includes(".") ? originalName.substring(originalName.lastIndexOf(".")) : ""`.
The substring from the last `.` (inclusive) is the final `'.'` together
with the characters after it, i.e. the reversed dot-free prefix of the
reversed name. -/
def suffixFromLastDot (cs : List Char) : List Char :=
  '.' :: (cs.reverse.takeWhile (fun c => c != '.')).reverse

/-- Extension part of `makeUniqueFileName`. -/
def extOf (originalName : String) : String :=
  if '.' ∈ originalName.data then String.mk (suffixFromLastDot originalName.data) else ""

/-- `makeUniqueFileName(originalName)` from the source, with the freshly
generated `randomUUID()` value passed in explicitly:
the UUID concatenated with the preserved extension. -/
def makeUniqueFileName (uuid originalName : String) : String :=
  uuid ++ extOf originalName

/-- The fields of `UploadOptions` consumed by `resolveKey` /
`buildFullKey`, plus the pass-through fields. -/
structure UploadOptions where
  key : Option String := none
  folder : Option String := none
  fileName : Option String := none
  generateUniqueFileName : Option Bool := none
  contentType : Option String := none
  metadata : Option (List (String × String)) := none
  storageClass : Option String := none
deriving DecidableEq

/-- Result of `resolveKey`: the final S3 key and the stored filename. -/
structure ResolvedKey where
  key : String
  storedName : String
deriving DecidableEq

/-- `resolveKey(originalName, options)` from the source, with the
instance's normalised `basePath` and the fresh UUID passed explicitly.
Mirrors the source exactly:
`if (options.key) { ... }` then
`storedName = options.generateUniqueFileName ? makeUniqueFileName(originalName) : (options.fileName ?? originalName)` and
`key = buildFullKey(storedName, options.folder)`. -/
def resolveKey (basePath uuid originalName : String) (options : UploadOptions) :
    ResolvedKey :=
  if strTruthy options.key then
    let k := options.key.getD ""
    { key := k, storedName := storedNameFromKey k originalName }
  else
    let storedName :=
      if boolTruthy options.generateUniqueFileName then
        makeUniqueFileName uuid originalName
      else
        options.fileName.getD originalName
    { key := buildFullKey basePath storedName options.folder, storedName := storedName }

/-- A store-side failure, as seen by the type guard `isNoSuchKeyError`
(an object carrying a `name` property). -/
structure S3Error where
  name : String
deriving DecidableEq

/-- `isNoSuchKeyError(error)` from the source. -/
def isNoSuchKeyError (e : S3Error) : Bool :=
  e.name == "NoSuchKey"

/-- Download modes of `download(key, mode)`. -/
inductive DownloadMode
  | stream
  | buffer
deriving DecidableEq

/-- The `ObjectMetadata` result shape built by `download`. -/
structure ObjectMetadata where
  contentType : Option String := none
  contentLength : Option Nat := none
  lastModified : Option Nat := none
  metadata : Option (List (String × String)) := none
  storageClass : Option String := none
deriving DecidableEq

/-- The store's response to a successful `GetObjectCommand`: an optional
body (a sequence of byte chunks, as delivered by the Node stream) plus
the header fields `download` reads. -/
structure GetObjectResponse where
  Body : Option (List (List Nat)) := none
  ContentType : Option String := none
  ContentLength : Option Nat := none
  LastModified : Option Nat := none
  Metadata : Option (List (String × String)) := none
  StorageClass : Option String := none
deriving DecidableEq

/-- Payload of a successful `download`: either the fully drained buffer
(`Buffer.concat(chunks)`) or the raw stream. -/
inductive DownloadPayload
  | bufferResult (bytes : List Nat)
  | streamResult (chunks : List (List Nat))
deriving DecidableEq

/-- The metadata record `download` assembles from the response. -/
def metadataOfResponse (response : GetObjectResponse) : ObjectMetadata :=
  { contentType := response.ContentType
    contentLength := response.ContentLength
    lastModified := response.LastModified
    metadata := response.Metadata
    storageClass := response.StorageClass }

/-- `download(key, mode)` from the source, as a function of the store's
behaviour for the issued get request (`send`): on success with no body
returns `null`; on success with a body returns buffer or stream payload
according to `mode ?? "stream"`; on failure returns `null` for the
distinguished NoSuchKey error and re-raises anything else. -/
def download (send : Except S3Error GetObjectResponse) (mode : Option DownloadMode) :
    Except S3Error (Option (DownloadPayload × ObjectMetadata)) :=
  match send with
  | .ok response =>
    match response.Body with
    | none => .ok none
    | some chunks =>
      let metadata := metadataOfResponse response
      if mode.getD .stream == .buffer then
        .ok (some (.bufferResult chunks.flatten, metadata))
      else
        .ok (some (.streamResult chunks, metadata))
  | .error e => if isNoSuchKeyError e then .ok none else .error e

/-- `exists(key)` from the source (named `existsCheck` here because
`exists` is a Lean keyword), as a function of the store's behaviour for
the issued get request: true on success, false on the distinguished
NoSuchKey error, re-raise otherwise. -/
def existsCheck (send : Except S3Error GetObjectResponse) : Except S3Error Bool :=
  match send with
  | .ok _ => .ok true
  | .error e => if isNoSuchKeyError e then .ok false else .error e

/-- `chunkArray(arr, size)` from the source: successive slices of length
`size`. The source's `for (let i = 0; i < arr.length; i += size)` loop is
only ever called with `size = 1000`; the `size = 0` guard here makes the
recursion total (the JS loop would not terminate there). -/
def chunkArray {α : Type} (arr : List α) (size : Nat) : List (List α) :=
  if _h : arr.length = 0 ∨ size = 0 then []
  else arr.take size :: chunkArray (arr.drop size) size
termination_by arr.length
decreasing_by
  simp only [List.length_drop]
  omega

/-- True exactly when an `Except` carries a success (a resolved
promise). -/
def isOk {ε α : Type} : Except ε α → Bool
  | .ok _ => true
  | .error _ => false

/-- The per-key delete requests issued by `deleteMany(keys)`: one
`this.delete(key)` per element of each chunk of `chunkArray(keys, 1000)`,
in order. -/
def deleteManyRequests (keys : List String) : List String :=
  (chunkArray keys 1000).flatten

/-- Whether `deleteMany(keys)` resolves, as a function of the store's
per-key delete behaviour `del`: the nested `Promise.all` resolves exactly
when every individual delete resolves. -/
def deleteManySucceeds (del : String → Except S3Error Unit) (keys : List String) : Bool :=
  (chunkArray keys 1000).all (fun chunk => chunk.all (fun k => isOk (del k)))

/-- Options accepted by `copy(sourceKey, destinationKey, options)`. -/
structure CopyOptions where
  storageClass : Option String := none
  metadata : Option (List (String × String)) := none
deriving DecidableEq

/-- The `CopyObjectCommand` input assembled by `copy`. -/
structure CopyObjectCommandInput where
  Bucket : String
  CopySource : String
  Key : String
  StorageClass : String
  Metadata : Option (List (String × String))
  MetadataDirective : Option String
deriving DecidableEq

/-- `copy(sourceKey, destinationKey, options)` from the source, with the
instance's bucket and default storage class passed explicitly. The
conditional spread `...(options.metadata && { Metadata, MetadataDirective: "REPLACE" })`
adds both fields when `options.metadata` is present (any object is
truthy) and neither when it is absent. -/
def copyCommand (bucketName instanceStorageClass sourceKey destinationKey : String)
    (options : CopyOptions) : CopyObjectCommandInput :=
  { Bucket := bucketName
    CopySource := bucketName ++ "/" ++ sourceKey
    Key := destinationKey
    StorageClass := options.storageClass.getD instanceStorageClass
    Metadata := if options.metadata.isSome then options.metadata else none
    MetadataDirective := if options.metadata.isSome then some "REPLACE" else none }

/-- Whether the character list contains two adjacent slashes. -/
def hasDoubledSlash : List Char → Bool
  | a :: b :: cs => (a == '/' && b == '/') || hasDoubledSlash (b :: cs)
  | _ => false

/-- Absence of a doubled slash, phrased over adjacent characters (used as
a proof-side reformulation of `hasDoubledSlash`). -/
def noDoubledSlash (cs : List Char) : Prop :=
  List.Chain' (fun a b => ¬(a = '/' ∧ b = '/')) cs

-- ---------------------------------------------------------------------------
-- Theorems
-- ---------------------------------------------------------------------------

/-- Rebuilding a string from its character list is the identity. -/
theorem string_mk_data (s : String) : String.mk s.data = s := rfl

/-- The character list of a rebuilt string is the original list. -/
theorem data_string_mk (l : List Char) : (String.mk l).data = l := rfl

/-- `splitSlash` always returns at least one segment, like JavaScript
`split`. -/
theorem splitSlash_ne_nil : ∀ (cs : List Char), splitSlash cs ≠ []
  | [] => by simp [splitSlash]
  | c :: cs => by
    by_cases hc : c = '/'
    · simp [splitSlash, hc]
    · have h := splitSlash_ne_nil cs
      simp only [splitSlash, if_neg hc]
      cases hs : splitSlash cs with
      | nil => exact absurd hs h
      | cons seg segs => simp

/-- A slash-free string is returned by `splitSlash` as its single
segment. -/
theorem splitSlash_no_slash : ∀ (cs : List Char), '/' ∉ cs → splitSlash cs = [cs]
  | [], _ => rfl
  | c :: cs, h => by
    have hc : c ≠ '/' := fun e => h (e ▸ List.mem_cons_self c cs)
    have hcs : '/' ∉ cs := fun m => h (List.mem_cons_of_mem _ m)
    simp [splitSlash, if_neg hc, splitSlash_no_slash cs hcs]

/-- A string containing a slash splits into at least two segments. -/
theorem splitSlash_two_le : ∀ (cs : List Char), '/' ∈ cs → 2 ≤ (splitSlash cs).length
  | [], h => absurd h (List.not_mem_nil _)
  | c :: cs, h => by
    by_cases hc : c = '/'
    · have h1 : 0 < (splitSlash cs).length :=
        List.length_pos.mpr (splitSlash_ne_nil cs)
      simp only [splitSlash, if_pos hc, List.length_cons]
      omega
    · have hcs : '/' ∈ cs := by
        rcases List.mem_cons.mp h with h1 | h2
        · exact absurd h1.symm hc
        · exact h2
      have ih := splitSlash_two_le cs hcs
      simp only [splitSlash, if_neg hc]
      cases hs : splitSlash cs with
      | nil => exact absurd hs (splitSlash_ne_nil cs)
      | cons seg segs =>
        rw [hs] at ih
        simp only [List.length_cons] at ih ⊢
        omega

/-- The last segment produced by `splitSlash` is the slash-free suffix
after the final `'/'`. -/
theorem splitSlash_last_append :
    ∀ (pre suf : List Char), '/' ∉ suf →
      (splitSlash (pre ++ '/' :: suf)).getLast? = some suf
  | [], suf, h => by
    simp only [List.nil_append, splitSlash, if_pos rfl]
    rw [splitSlash_no_slash suf h]
    rfl
  | c :: pre, suf, h => by
    by_cases hc : c = '/'
    · subst hc
      have hstep :
          splitSlash ('/' :: (pre ++ '/' :: suf)) = [] :: splitSlash (pre ++ '/' :: suf) := by
        simp [splitSlash]
      rw [List.cons_append, hstep]
      cases hs : splitSlash (pre ++ '/' :: suf) with
      | nil => exact absurd hs (splitSlash_ne_nil _)
      | cons a as =>
        have ih := splitSlash_last_append pre suf h
        rw [hs] at ih
        rw [List.getLast?_cons_cons]
        exact ih
    · simp only [List.cons_append, splitSlash, if_neg hc]
      have ih := splitSlash_last_append pre suf h
      cases hs : splitSlash (pre ++ '/' :: suf) with
      | nil => exact absurd hs (splitSlash_ne_nil _)
      | cons a as =>
        rw [hs] at ih
        cases as with
        | nil =>
          have h2 := splitSlash_two_le (pre ++ '/' :: suf) (by simp)
          rw [hs] at h2
          simp at h2
        | cons b bs =>
          rw [List.getLast?_cons_cons]
          rwa [List.getLast?_cons_cons] at ih

/-- Concatenating the chunks returns the original list (for a positive
chunk size). -/
theorem chunkArray_flatten {α : Type} (n : Nat) (hn : 0 < n) (l : List α) :
    (chunkArray l n).flatten = l := by
  rw [chunkArray]
  split
  · rename_i h
    rcases h with h | h
    · simp [List.length_eq_zero.mp h]
    · omega
  · rename_i h
    rw [List.flatten_cons, chunkArray_flatten n hn (l.drop n)]
    exact List.take_append_drop n l
termination_by l.length
decreasing_by
  simp only [List.length_drop]
  omega

/-- Every chunk produced by `chunkArray` has at most `size` elements. -/
theorem chunkArray_length_le {α : Type} (n : Nat) (l : List α) :
    ∀ c ∈ chunkArray l n, c.length ≤ n := by
  intro c hc
  rw [chunkArray] at hc
  split at hc
  · simp at hc
  · rename_i h
    rcases List.mem_cons.mp hc with h1 | h2
    · rw [h1]
      exact List.length_take_le _ _
    · exact chunkArray_length_le n (l.drop n) c h2
termination_by l.length
decreasing_by
  simp only [List.length_drop]
  omega

/-- `deleteMany` resolves exactly when every individual per-key delete
resolves. -/
theorem deleteManySucceeds_iff (del : String → Except S3Error Unit) (keys : List String) :
    deleteManySucceeds del keys = true ↔ ∀ k ∈ keys, isOk (del k) = true := by
  unfold deleteManySucceeds
  rw [List.all_eq_true]
  constructor
  · intro h k hk
    have hk' : k ∈ (chunkArray keys 1000).flatten := by
      rw [chunkArray_flatten 1000 (by omega) keys]
      exact hk
    rcases List.mem_flatten.mp hk' with ⟨c, hc, hkc⟩
    have hcall := h c hc
    rw [List.all_eq_true] at hcall
    exact hcall k hkc
  · intro h c hc
    rw [List.all_eq_true]
    intro k hk
    apply h
    rw [← chunkArray_flatten 1000 (by omega) keys]
    exact List.mem_flatten.mpr ⟨c, hc, hk⟩

/-- Claim C2: when `options.key` is set (present and non-empty), the
resolved final key equals `options.key` verbatim and the values of
`options.folder`, `options.fileName` and `options.generateUniqueFileName`
have no effect on the result of `resolveKey`. -/
theorem resolveKey_explicit_key_wins (basePath uuid originalName k : String)
    (o : UploadOptions) (hk : o.key = some k) (hne : k ≠ "") :
    (resolveKey basePath uuid originalName o).key = k ∧
    ∀ (folder fileName : Option String) (gen : Option Bool),
      resolveKey basePath uuid originalName
        { o with folder := folder, fileName := fileName, generateUniqueFileName := gen } =
        resolveKey basePath uuid originalName o := by
  have ht : strTruthy (some k) = true := by
    simpa [strTruthy] using hne
  constructor
  · simp [resolveKey, hk, ht]
  · intro folder fileName gen
    simp [resolveKey, hk, ht]

/-- Witness for C2 at a concrete input. -/
theorem resolveKey_explicit_key_wins_witness :
    (resolveKey "uploads" "u" "orig.png" { key := some "custom/path/file.jpg" }).key =
      "custom/path/file.jpg" :=
  (resolveKey_explicit_key_wins "uploads" "u" "orig.png" "custom/path/file.jpg"
    { key := some "custom/path/file.jpg" } rfl (by decide)).1

/-- Claim C9: an explicitly empty `options.key` (`""`) is falsy, so
`resolveKey` treats it exactly as an absent key and falls back to the
folder/fileName/generateUniqueFileName resolution path. -/
theorem resolveKey_empty_key_ignored (basePath uuid originalName : String)
    (o : UploadOptions) (h : o.key = some "") :
    resolveKey basePath uuid originalName o =
      resolveKey basePath uuid originalName { o with key := none } := by
  simp [resolveKey, strTruthy, h]

/-- Witness for C9 at a concrete input. -/
theorem resolveKey_empty_key_ignored_witness :
    resolveKey "base" "u" "a.txt" { key := some "", folder := some "docs" } =
      resolveKey "base" "u" "a.txt" { key := none, folder := some "docs" } :=
  resolveKey_empty_key_ignored "base" "u" "a.txt"
    { key := some "", folder := some "docs" } rfl

/-- Claim C8: the copy request carries the caller's metadata together
with the REPLACE directive exactly when `options.metadata` is supplied,
and carries neither when it is omitted. -/
theorem copyCommand_metadata_directive (bucket sc src dst : String) (o : CopyOptions) :
    (∀ m, o.metadata = some m →
      (copyCommand bucket sc src dst o).Metadata = some m ∧
      (copyCommand bucket sc src dst o).MetadataDirective = some "REPLACE") ∧
    (o.metadata = none →
      (copyCommand bucket sc src dst o).Metadata = none ∧
      (copyCommand bucket sc src dst o).MetadataDirective = none) := by
  constructor
  · intro m hm
    simp [copyCommand, hm]
  · intro hm
    simp [copyCommand, hm]

/-- Witness for C8 at concrete inputs, both with and without metadata. -/
theorem copyCommand_metadata_directive_witness :
    ((copyCommand "b" "sc" "s" "d" { metadata := some [("k", "v")] }).Metadata =
        some [("k", "v")] ∧
      (copyCommand "b" "sc" "s" "d" { metadata := some [("k", "v")] }).MetadataDirective =
        some "REPLACE") ∧
    ((copyCommand "b" "sc" "s" "d" { }).Metadata = none ∧
      (copyCommand "b" "sc" "s" "d" { }).MetadataDirective = none) :=
  ⟨(copyCommand_metadata_directive "b" "sc" "s" "d" { metadata := some [("k", "v")] }).1
      [("k", "v")] rfl,
    (copyCommand_metadata_directive "b" "sc" "s" "d" { }).2 rfl⟩

/-- Claim C6: on the distinguished NoSuchKey failure, `download` returns
the absence sentinel and `exists` returns false, neither raising; every
other store failure is re-raised unchanged by both. -/
theorem download_exists_notFound (e : S3Error) (mode : Option DownloadMode) :
    (download (.error ⟨"NoSuchKey"⟩) mode = .ok none ∧
      existsCheck (.error ⟨"NoSuchKey"⟩) = .ok false) ∧
    (e.name ≠ "NoSuchKey" →
      download (.error e) mode = .error e ∧ existsCheck (.error e) = .error e) := by
  constructor
  · constructor
    · simp [download, isNoSuchKeyError]
    · simp [existsCheck, isNoSuchKeyError]
  · intro h
    have he : isNoSuchKeyError e = false := by
      simpa [isNoSuchKeyError] using h
    constructor
    · simp [download, he]
    · simp [existsCheck, he]

/-- Witness for C6: a permission failure is re-raised unchanged. -/
theorem download_exists_notFound_witness :
    download (.error ⟨"AccessDenied"⟩) none = .error ⟨"AccessDenied"⟩ ∧
    existsCheck (.error ⟨"AccessDenied"⟩) = .error ⟨"AccessDenied"⟩ :=
  (download_exists_notFound ⟨"AccessDenied"⟩ none).2 (by decide)

/-- Claim C10: a successful get response with no body makes `download`
return the absence sentinel, the same value as for a missing key. -/
theorem download_missing_body (resp : GetObjectResponse) (mode : Option DownloadMode)
    (h : resp.Body = none) :
    download (.ok resp) mode = .ok none ∧
    download (.ok resp) mode = download (.error ⟨"NoSuchKey"⟩) mode := by
  constructor
  · simp [download, h]
  · simp [download, h, isNoSuchKeyError]

/-- Witness for C10 at a concrete body-less response. -/
theorem download_missing_body_witness :
    download (.ok { ContentType := some "text/plain" }) (some .buffer) = .ok none :=
  (download_missing_body { ContentType := some "text/plain" } (some .buffer) rfl).1

/-- A slash-free character list has no doubled slash. -/
theorem chain'_of_slashFree : ∀ (cs : List Char), '/' ∉ cs → noDoubledSlash cs
  | [], _ => List.chain'_nil
  | [_], _ => by simp [noDoubledSlash]
  | a :: b :: cs, h => by
    have ha : a ≠ '/' := fun e => h (by simp [e])
    have h' : '/' ∉ b :: cs := fun m => h (List.mem_cons_of_mem _ m)
    have ih := chain'_of_slashFree (b :: cs) h'
    rw [noDoubledSlash, List.chain'_cons]
    exact ⟨fun hc => ha hc.1, ih⟩

/-- `hasDoubledSlash` is false on lists satisfying `noDoubledSlash`. -/
theorem hasDoubledSlash_eq_false : ∀ (cs : List Char),
    noDoubledSlash cs → hasDoubledSlash cs = false
  | [], _ => rfl
  | [_], _ => rfl
  | a :: b :: cs, h => by
    rw [noDoubledSlash, List.chain'_cons] at h
    have ih := hasDoubledSlash_eq_false (b :: cs) h.2
    rcases Decidable.em (a = '/') with ha | ha
    · have hb2 : b ≠ '/' := fun hb0 => h.1 ⟨ha, hb0⟩
      simp [hasDoubledSlash, ih, ha, hb2]
    · simp [hasDoubledSlash, ih, ha]

/-- Joining non-empty parts yields a non-empty list. -/
theorem joinSlash_ne_nil : ∀ (parts : List (List Char)), parts ≠ [] →
    (∀ p ∈ parts, p ≠ []) → joinSlash parts ≠ []
  | [], hne, _ => absurd rfl hne
  | [p], _, hp => by simpa [joinSlash] using hp p (by simp)
  | _ :: _ :: _, _, _ => by simp [joinSlash]

/-- Joining non-empty, slash-free parts with `"/"` yields a key with no
doubled slash, no leading slash, and no trailing slash. -/
theorem joinSlash_props : ∀ (parts : List (List Char)),
    (∀ p ∈ parts, p ≠ [] ∧ '/' ∉ p) →
    noDoubledSlash (joinSlash parts) ∧
    (joinSlash parts).head? ≠ some '/' ∧
    (joinSlash parts).getLast? ≠ some '/'
  | [], _ => by simp [joinSlash, noDoubledSlash]
  | [p], h => by
    have hp := h p (by simp)
    simp only [joinSlash]
    refine ⟨chain'_of_slashFree p hp.2, ?_, ?_⟩
    · intro hh
      exact hp.2 (List.mem_of_mem_head? hh)
    · intro hh
      exact hp.2 (List.mem_of_mem_getLast? hh)
  | p :: q :: ps, h => by
    have hp := h p (by simp)
    have hrest := joinSlash_props (q :: ps) (fun r hr => h r (by simp [hr]))
    obtain ⟨hch, hhd, hlast⟩ := hrest
    have hne : joinSlash (q :: ps) ≠ [] :=
      joinSlash_ne_nil (q :: ps) (by simp) (fun r hr => (h r (by simp [hr])).1)
    have hjoin : joinSlash (p :: q :: ps) = p ++ '/' :: joinSlash (q :: ps) := rfl
    rw [hjoin]
    refine ⟨?_, ?_, ?_⟩
    · rw [noDoubledSlash, List.chain'_append]
      refine ⟨chain'_of_slashFree p hp.2, ?_, ?_⟩
      · rw [List.chain'_cons']
        refine ⟨?_, hch⟩
        intro y hy hcontra
        apply hhd
        rw [← hcontra.2]
        exact hy
      · intro x hx y hy hcontra
        exact hp.2 (hcontra.1 ▸ List.mem_of_mem_getLast? hx)
    · cases hq : p with
      | nil => exact absurd hq hp.1
      | cons a as =>
        simp only [List.cons_append, List.head?_cons]
        intro hh
        injection hh with hh
        apply hp.2
        rw [hq, ← hh]
        exact List.mem_cons_self a as
    · rw [List.getLast?_append_of_ne_nil p (by simp)]
      cases hj : joinSlash (q :: ps) with
      | nil => exact absurd hj hne
      | cons j js =>
        rw [List.getLast?_cons_cons]
        rw [hj] at hlast
        exact hlast

/-- If the (already normalised) base path, the folder after stripping,
and the filename are slash-free, and the filename is non-empty,
`buildFullKey` produces a key with no doubled slash, no leading slash
and no trailing slash. -/
theorem buildFullKey_good (basePath fileName : String) (folder : Option String)
    (hb : '/' ∉ basePath.data)
    (hf : ∀ f, folder = some f → '/' ∉ (stripSlashes f).data)
    (hfn : '/' ∉ fileName.data) :
    noDoubledSlash (buildFullKey basePath fileName folder).data ∧
    (buildFullKey basePath fileName folder).data.head? ≠ some '/' ∧
    (buildFullKey basePath fileName folder).data.getLast? ≠ some '/' := by
  simp only [buildFullKey, data_string_mk]
  apply joinSlash_props
  intro l hl
  obtain ⟨p, hpmem, rfl⟩ := List.mem_map.mp hl
  have hp := List.mem_filter.mp hpmem
  have hlen : 0 < p.length := of_decide_eq_true hp.2
  have hdata : p.data ≠ [] := by
    intro hnil
    have h0 : p.length = 0 := by
      show p.data.length = 0
      rw [hnil]
      rfl
    omega
  refine ⟨hdata, ?_⟩
  have hcases : p = basePath ∨
      p = (if strTruthy folder then stripSlashes (folder.getD "") else "") ∨
      p = fileName := by
    simpa using hp.1
  rcases hcases with hcase | hcase | hcase
  · rw [hcase]
    exact hb
  · subst hcase
    split
    · rename_i htr
      cases folder with
      | none => simp [strTruthy] at htr
      | some f => simpa using hf f rfl
    · intro hmem
      simp at hmem
  · rw [hcase]
    exact hfn

/-- Dropping the dot-free prefix of a list that contains a dot leaves a
list headed by that dot. -/
theorem dropWhile_dot : ∀ (cs : List Char), '.' ∈ cs →
    ∃ d, cs.dropWhile (fun x => x != '.') = '.' :: d
  | [], h => absurd h (List.not_mem_nil _)
  | c :: cs, h => by
    by_cases hc : c = '.'
    · subst hc
      exact ⟨cs, by simp [List.dropWhile_cons]⟩
    · have hcs : '.' ∈ cs := by
        rcases List.mem_cons.mp h with h1 | h2
        · exact absurd h1.symm hc
        · exact h2
      obtain ⟨d, hd⟩ := dropWhile_dot cs hcs
      refine ⟨d, ?_⟩
      rw [List.dropWhile_cons]
      simp [hc, hd]

/-- Claim C5: `deleteMany` splits the input into chunks of at most 1000
keys, issues one delete request per input key (in particular zero
requests for empty input), and resolves exactly when every underlying
delete resolves (so any individual failure fails the whole call). -/
theorem deleteMany_spec (del : String → Except S3Error Unit) (keys : List String) :
    deleteManyRequests keys = keys ∧
    deleteManyRequests [] = [] ∧
    (∀ c ∈ chunkArray keys 1000, c.length ≤ 1000) ∧
    (deleteManySucceeds del keys = true ↔ ∀ k ∈ keys, isOk (del k) = true) := by
  refine ⟨?_, ?_, chunkArray_length_le 1000 keys, deleteManySucceeds_iff del keys⟩
  · unfold deleteManyRequests
    exact chunkArray_flatten 1000 (by omega) keys
  · unfold deleteManyRequests
    exact chunkArray_flatten 1000 (by omega) []

/-- Witness for C5 at a concrete key list and delete behaviour. -/
theorem deleteMany_spec_witness :
    deleteManyRequests ["a", "b", "c"] = ["a", "b", "c"] ∧
    deleteManySucceeds (fun _ => Except.ok ()) ["a", "b", "c"] = true :=
  ⟨(deleteMany_spec (fun _ => Except.ok ()) ["a", "b", "c"]).1,
    (deleteMany_spec (fun _ => Except.ok ()) ["a", "b", "c"]).2.2.2.mpr
      (fun _ _ => rfl)⟩

/-- Claim C1 (code bug): with `options.fileName` present and
`options.generateUniqueFileName` true, `resolveKey` uses the generated
UUID-based name and ignores `options.fileName`, contradicting the
priority order documented on `resolveKey` itself (explicit fileName is
step 2, generated name step 3). At the failing input the code yields the
UUID-based stored name, not `"custom.txt"`. -/
theorem resolveKey_generate_overrides_fileName :
    resolveKey "" "u" "report.txt"
      { fileName := some "custom.txt", generateUniqueFileName := some true } =
      { key := "u.txt", storedName := "u.txt" } ∧
    ("u.txt" : String) ≠ "custom.txt" := by
  decide

/-- Claim C7: when unique-name generation applies, the stored name is
the freshly generated identifier concatenated with the extension taken
from the last `.` of the original name (empty when there is no `.`):
`"archive.tar.gz"` keeps `".gz"`, `"Makefile"` gets no suffix, and in
general the extension is a suffix of the original name that starts with
`'.'` and contains no further `'.'`. -/
theorem makeUniqueFileName_preserves_extension (uuid name : String) :
    makeUniqueFileName uuid "archive.tar.gz" = uuid ++ ".gz" ∧
    makeUniqueFileName uuid "Makefile" = uuid ∧
    makeUniqueFileName uuid name = uuid ++ extOf name ∧
    ('.' ∉ name.data → extOf name = "") ∧
    ('.' ∈ name.data → ∃ pre, name.data = pre ++ (extOf name).data ∧
      (extOf name).data.head? = some '.' ∧ '.' ∉ (extOf name).data.tail) := by
  refine ⟨?_, ?_, rfl, ?_, ?_⟩
  · rw [makeUniqueFileName, show extOf "archive.tar.gz" = ".gz" from by decide]
  · rw [makeUniqueFileName, show extOf "Makefile" = "" from by decide]
    exact String.append_empty uuid
  · intro h
    simp [extOf, h]
  · intro hmem
    have hmemr : '.' ∈ name.data.reverse := List.mem_reverse.mpr hmem
    obtain ⟨d, hd⟩ := dropWhile_dot name.data.reverse hmemr
    have hr : name.data.reverse =
        name.data.reverse.takeWhile (fun x => x != '.') ++ '.' :: d := by
      conv_lhs =>
        rw [← List.takeWhile_append_dropWhile (fun x => x != '.') name.data.reverse]
      rw [hd]
    have hdata : name.data =
        d.reverse ++ '.' :: (name.data.reverse.takeWhile (fun x => x != '.')).reverse := by
      conv_lhs => rw [← List.reverse_reverse name.data, hr]
      rw [List.reverse_append, List.reverse_cons, List.append_assoc]
      simp
    refine ⟨d.reverse, ?_, ?_, ?_⟩
    · rw [hdata]
      simp [extOf, hmem, suffixFromLastDot, data_string_mk]
    · simp [extOf, hmem, suffixFromLastDot, data_string_mk]
    · simp only [extOf, if_pos hmem, suffixFromLastDot, data_string_mk, List.tail_cons]
      intro hx
      have hx2 := List.mem_reverse.mp hx
      have hx3 := List.mem_takeWhile_imp hx2
      simp at hx3

/-- Witness for C7 at concrete inputs, covering both the dotted and the
dot-free case. -/
theorem makeUniqueFileName_preserves_extension_witness :
    extOf "Makefile" = "" ∧
    ∃ pre, ("a.b" : String).data = pre ++ (extOf "a.b").data ∧
      (extOf "a.b").data.head? = some '.' ∧ '.' ∉ (extOf "a.b").data.tail :=
  ⟨(makeUniqueFileName_preserves_extension "u" "Makefile").2.2.2.1 (by decide),
    (makeUniqueFileName_preserves_extension "u" "a.b").2.2.2.2 (by decide)⟩

/-- Counterexample to claim C3 as stated: for a slash-free explicit key,
`split("/").pop()` returns the whole key, never `undefined`, so the
stored name is the key itself and not `originalName`. -/
theorem resolveKey_slashless_key_counterexample :
    (resolveKey "" "u" "orig.txt" { key := some "plain" }).storedName = "plain" ∧
    '/' ∉ ("plain" : String).data ∧
    ("plain" : String) ≠ "orig.txt" := by
  decide

/-- Claim C3 (amended): with `options.key` present and non-empty, the
final key is `options.key` and the stored name is its last `/`-separated
segment; when the key contains no `/` that segment is the key itself
(the `?? originalName` fallback is unreachable). -/
theorem resolveKey_storedName_last_segment (basePath uuid originalName k : String)
    (o : UploadOptions) (hk : o.key = some k) (hne : k ≠ "") :
    (resolveKey basePath uuid originalName o).key = k ∧
    ('/' ∉ k.data → (resolveKey basePath uuid originalName o).storedName = k) ∧
    (∀ pre suf : List Char, k.data = pre ++ '/' :: suf → '/' ∉ suf →
      (resolveKey basePath uuid originalName o).storedName = String.mk suf) := by
  have ht : strTruthy (some k) = true := by
    simpa [strTruthy] using hne
  refine ⟨?_, ?_, ?_⟩
  · simp [resolveKey, hk, ht]
  · intro h
    simp [resolveKey, hk, ht, storedNameFromKey, splitSlash_no_slash k.data h,
      string_mk_data]
  · intro pre suf hsplit hsuf
    simp [resolveKey, hk, ht, storedNameFromKey, hsplit,
      splitSlash_last_append pre suf hsuf]

/-- Witness for the amended C3 at concrete inputs, covering both the
slash-free and the slash-containing case. -/
theorem resolveKey_storedName_last_segment_witness :
    (resolveKey "" "u" "orig.txt" { key := some "plain" }).storedName = "plain" ∧
    (resolveKey "" "u" "orig.txt" { key := some "a/b/c.png" }).storedName =
      String.mk ['c', '.', 'p', 'n', 'g'] :=
  ⟨(resolveKey_storedName_last_segment "" "u" "orig.txt" "plain"
      { key := some "plain" } rfl (by decide)).2.1 (by decide),
    (resolveKey_storedName_last_segment "" "u" "orig.txt" "a/b/c.png"
      { key := some "a/b/c.png" } rfl (by decide)).2.2
      ['a', '/', 'b'] ['c', '.', 'p', 'n', 'g'] (by decide) (by decide)⟩

/-- Claim C4 (amended): the Key Builder strips at most one leading and
one trailing slash from the base path and the folder. For any base path
and folder that are slash-free after that stripping, and any non-empty
slash-free filename, the built key has no doubled slash, no leading
slash and no trailing slash; in particular a single leading or trailing
slash on the base path is stripped, so passing "uploads/" and "/uploads"
is equivalent. -/
theorem buildFullKey_amended (base folder fileName : String) (_hn : fileName ≠ "")
    (hb : '/' ∉ (stripSlashes base).data)
    (hf : '/' ∉ (stripSlashes folder).data)
    (hfn : '/' ∉ fileName.data) :
    hasDoubledSlash
        (buildFullKey (normalizeBasePath (some base)) fileName (some folder)).data = false ∧
    (buildFullKey (normalizeBasePath (some base)) fileName (some folder)).data.head? ≠
      some '/' ∧
    (buildFullKey (normalizeBasePath (some base)) fileName (some folder)).data.getLast? ≠
      some '/' ∧
    buildFullKey (normalizeBasePath (some "uploads/")) fileName (some folder) =
      buildFullKey (normalizeBasePath (some "/uploads")) fileName (some folder) := by
  have hbase : '/' ∉ (normalizeBasePath (some base)).data := by
    unfold normalizeBasePath
    split
    · simpa using hb
    · simp
  have hkey := buildFullKey_good (normalizeBasePath (some base)) fileName (some folder)
    hbase
    (fun f hf2 => by
      injection hf2 with hf2
      rw [← hf2]
      exact hf)
    hfn
  refine ⟨hasDoubledSlash_eq_false _ hkey.1, hkey.2.1, hkey.2.2, ?_⟩
  have heq : normalizeBasePath (some "uploads/") = normalizeBasePath (some "/uploads") := by
    decide
  rw [heq]

/-- Witness for the amended C4 at concrete inputs: the normalised key of
a slash-decorated base path and folder, and the leading/trailing slash
equivalence. -/
theorem buildFullKey_amended_witness :
    hasDoubledSlash
        (buildFullKey (normalizeBasePath (some "/uploads")) "f.txt" (some "docs/")).data =
      false ∧
    buildFullKey (normalizeBasePath (some "uploads/")) "f.txt" (some "docs") =
      buildFullKey (normalizeBasePath (some "/uploads")) "f.txt" (some "docs") :=
  ⟨(buildFullKey_amended "/uploads" "docs/" "f.txt" (by decide) (by decide) (by decide)
      (by decide)).1,
    (buildFullKey_amended "x" "docs" "f.txt" (by decide) (by decide) (by decide)
      (by decide)).2.2.2⟩

/-- Counterexample to claim C4 as stated: all three inputs are non-empty
strings, yet the built key contains a doubled slash (internal doubled
slashes in the folder are not normalised away). -/
theorem buildFullKey_doubled_slash_counterexample :
    ("uploads" : String) ≠ "" ∧ ("a//b" : String) ≠ "" ∧ ("f.txt" : String) ≠ "" ∧
    buildFullKey (normalizeBasePath (some "uploads")) "f.txt" (some "a//b") =
      "uploads/a//b/f.txt" ∧
    hasDoubledSlash ("uploads/a//b/f.txt" : String).data = true := by
  decide
